import Mathlib

/-!
Verification of the polybet Market Valuation Engine.

The Python source (src/polybet) is shallowly embedded here: Python floats
become exact rationals (ℚ), `dict[str, float]` becomes an association list
`List (String × ℚ)` (keys unique in every dict produced by the code, lookup
returns the first binding), `None`-able values become `Option`.  Every
definition mirrors the corresponding function of the source file named in
its doc comment.
-/

/-- Python `dict[str, float]`, as an association list (insertion order kept). -/
abbrev Dict := List (String × ℚ)

/-- The list of keys of a dict (Python `dict.keys()`). -/
def dictKeys (d : Dict) : List String := d.map Prod.fst

/-- Python `d.get(k, dflt)`: first binding of `k`, else the default. -/
def dictGet (d : Dict) (k : String) (dflt : ℚ) : ℚ :=
  match List.lookup k d with
  | some v => v
  | none => dflt

/-- The list of values of a dict (Python `dict.values()`). -/
def dictValues (d : Dict) : List ℚ := d.map Prod.snd

/-- Sum of all values of a dict. -/
def sumValues (d : Dict) : ℚ := (dictValues d).sum

/-- `sum(v for v in values.values() if v >= 0)` from `normalize_probs`
(math_utils.py line 5). -/
def dictTotal (d : Dict) : ℚ := ((dictValues d).filter (fun v => 0 ≤ v)).sum

/-- math_utils.py lines 4-8, `normalize_probs`: clamp negatives to 0 and
divide by the sum of the non-negative values; all-zero output when that sum
is not positive. -/
def normalize_probs (values : Dict) : Dict :=
  let total := dictTotal values
  if total ≤ 0 then values.map (fun kv => (kv.1, 0))
  else values.map (fun kv => (kv.1, max 0 kv.2 / total))

/-- math_utils.py lines 11-13, `devig_decimal_odds`: keep odds strictly
above 1, invert them, normalize. -/
def devig_decimal_odds (odds : Dict) : Dict :=
  normalize_probs ((odds.filter (fun kv => 1 < kv.2)).map (fun kv => (kv.1, 1 / kv.2)))

/-- Python truthiness of an optional dict argument (`if mids:`): present and
non-empty. -/
def dictTruthy : Option Dict → Bool
  | none => false
  | some d => !d.isEmpty

/-- Concatenated key lists of several dicts. -/
def allKeys : List Dict → List String
  | [] => []
  | d :: ds => dictKeys d ++ allKeys ds

/-- The union of the outcome names of the given dicts (`all_outcomes` in
`blended_fair_probs`, math_utils.py lines 27-29); a set in Python, modelled
as the duplicate-free list of first occurrences. -/
def blendDomain (ds : List Dict) : List String := (allKeys ds).dedup

/-- Per-outcome 3-source weight (math_utils.py line 38):
`0.5 * r + 0.3 * m + 0.2 * p`, missing mid/ref values falling back to the
market price `p = prices.get(o, 0.0)`. -/
def blendWeight3 (prices m r : Dict) (o : String) : ℚ :=
  let p := dictGet prices o 0
  0.5 * dictGet r o p + 0.3 * dictGet m o p + 0.2 * p

/-- Per-outcome market+reference weight (math_utils.py line 45):
`0.7 * r + 0.3 * p`. -/
def blendWeightRef (prices r : Dict) (o : String) : ℚ :=
  let p := dictGet prices o 0
  0.7 * dictGet r o p + 0.3 * p

/-- Per-outcome market+mid weight (math_utils.py line 52):
`0.6 * m + 0.4 * p`. -/
def blendWeightMid (prices m : Dict) (o : String) : ℚ :=
  let p := dictGet prices o 0
  0.6 * dictGet m o p + 0.4 * p

/-- The weighted mapping built over the blend domain for the 3-source case. -/
def blended3 (prices m r : Dict) : Dict :=
  (blendDomain [prices, m, r]).map (fun o => (o, blendWeight3 prices m r o))

/-- The weighted mapping for the market+reference case. -/
def blendedRef (prices r : Dict) : Dict :=
  (blendDomain [prices, r]).map (fun o => (o, blendWeightRef prices r o))

/-- The weighted mapping for the market+mid case. -/
def blendedMid (prices m : Dict) : Dict :=
  (blendDomain [prices, m]).map (fun o => (o, blendWeightMid prices m o))

/-- math_utils.py lines 16-53, `blended_fair_probs`: blend market prices,
CLOB mid-prices and external reference odds with fixed weights, then
normalize; the label names the source combination used.  A `None` or empty
mid/ref dict counts as absent (Python truthiness). -/
def blended_fair_probs (prices : Dict) (mids ref : Option Dict) : Dict × String :=
  let hasMid := dictTruthy mids
  let hasRef := dictTruthy ref
  if !hasMid && !hasRef then
    (normalize_probs prices, "NO EDGE (no external reference)")
  else
    let m := mids.getD []
    let r := ref.getD []
    if hasRef && hasMid then
      (normalize_probs (blended3 prices m r), "Blended 50% ref / 30% mid / 20% market")
    else if hasRef then
      (normalize_probs (blendedRef prices r), "Blended 70% ref / 30% market")
    else
      (normalize_probs (blendedMid prices m), "Blended 60% mid / 40% market")

/-- math_utils.py lines 56-62, `fractional_kelly_fraction`. -/
def fractional_kelly_fraction (prob price fraction : ℚ) : ℚ :=
  if ¬ (0 < price ∧ price < 1) ∨ ¬ (0 ≤ prob ∧ prob ≤ 1) then 0
  else
    let b := (1 - price) / price
    let q := 1 - prob
    let kelly := (b * prob - q) / b
    max 0 (kelly * max 0 fraction)

/-- math_utils.py lines 65-72, `slippage_heuristic`: step function of the
snapshot liquidity (`None` = unknown). -/
def slippage_heuristic : Option ℚ → ℚ
  | none => 0.02
  | some liquidity => if liquidity < 2000 then 0.03 else if liquidity < 10000 then 0.015 else 0.0075

/-- models.py lines 8-17, `Outcome`. -/
structure Outcome where
  name : String
  price : ℚ
  best_bid : Option ℚ := none
  best_ask : Option ℚ := none
  mid : Option ℚ := none
  spread : Option ℚ := none
  token_id : Option String := none
  fee_rate_bps : Option ℚ := none
deriving DecidableEq

/-- costs.py lines 9-17, `CostBreakdown`. -/
structure CostBreakdown where
  spread : ℚ
  fee : ℚ
  slippage : ℚ
deriving DecidableEq

/-- costs.py lines 15-17, the `total` property: spread + fee + slippage. -/
def CostBreakdown.total (c : CostBreakdown) : ℚ := c.spread + c.fee + c.slippage

/-- costs.py lines 20-24, `estimate_cost_for_outcome`.  `outcome.spread / 2`
when the spread is known, else the 0.01 default; `(fee_rate_bps or 0.0)/10000`
(a 0 or missing fee rate both give 0); slippage from the heuristic. -/
def estimate_cost_for_outcome (outcome : Outcome) (liquidity : Option ℚ) : CostBreakdown :=
  { spread := match outcome.spread with
      | some s => s / 2
      | none => 0.01
    fee := (outcome.fee_rate_bps.getD 0) / 10000
    slippage := slippage_heuristic liquidity }

/-- models.py lines 38-48, `Candidate`.  The start time is a timestamp in
seconds (ℚ), `none` = unknown. -/
structure Candidate where
  title : String
  slug : String
  type : String := "market"
  active : Bool := false
  closed : Bool := true
  liquidity : ℚ := 0
  volume24hr : ℚ := 0
  start_date : Option ℚ := none
  sports_related : Bool := true
deriving DecidableEq

/-- The time component of the sort key of `choose_best_candidate`
(clients.py line 251): `abs((c.start_date - now).total_seconds())` when the
start time is known, `none` standing for Python's `float("inf")`. -/
def timeKey (now : ℚ) (c : Candidate) : Option ℚ := c.start_date.map (fun s => |s - now|)

/-- Three-way comparison of rationals (Python `<`, `==`, `>` on floats). -/
def cmpQ (x y : ℚ) : Ordering := if x < y then .lt else if y < x then .gt else .eq

/-- Three-way comparison of optional time distances, `none` = `float("inf")`
which compares greater than every real value and equal to itself. -/
def cmpTime : Option ℚ → Option ℚ → Ordering
  | none, none => .eq
  | none, some _ => .gt
  | some _, none => .lt
  | some x, some y => cmpQ x y

/-- Three-way lexicographic comparison of strings (Python `str` order). -/
def cmpStr (x y : String) : Ordering := if x < y then .lt else if y < x then .gt else .eq

/-- The sort key of `choose_best_candidate` (clients.py lines 248-253):
`(-liquidity, -volume24hr, |start - now| (inf when unknown), slug)`. -/
def candKey (now : ℚ) (c : Candidate) : ℚ × ℚ × Option ℚ × String :=
  (-c.liquidity, -c.volume24hr, timeKey now c, c.slug)

/-- Lexicographic three-way comparison of sort keys, mirroring Python's
tuple comparison. -/
def tupCmp (a b : ℚ × ℚ × Option ℚ × String) : Ordering :=
  (cmpQ a.1 b.1).then ((cmpQ a.2.1 b.2.1).then ((cmpTime a.2.2.1 b.2.2.1).then (cmpStr a.2.2.2 b.2.2.2)))

/-- `candidate a sorts strictly before candidate b` under the key of
clients.py lines 248-253. -/
def keyLT (now : ℚ) (a b : Candidate) : Bool := tupCmp (candKey now a) (candKey now b) == .lt

/-- First element of the stable sort by `candKey`: the leftmost candidate no
other candidate sorts strictly before (`sorted(active_pool, key=...)[0]`). -/
def pickBest (now : ℚ) : Candidate → List Candidate → Candidate
  | best, [] => best
  | best, c :: rest => pickBest now (if keyLT now c best then c else best) rest

/-- `pool` of clients.py line 239: active, not closed, non-empty slug. -/
def candidatePool (cands : List Candidate) : List Candidate :=
  cands.filter (fun c => c.active && !c.closed && !c.slug.isEmpty)

/-- `sports_pool` of clients.py line 240. -/
def sportsPool (cands : List Candidate) : List Candidate :=
  (candidatePool cands).filter (fun c => c.sports_related)

/-- `active_pool = sports_pool or pool` of clients.py line 241. -/
def activePool (cands : List Candidate) : List Candidate :=
  if (sportsPool cands).isEmpty then candidatePool cands else sportsPool cands

/-- clients.py lines 238-254, `choose_best_candidate`; `now` is passed
explicitly in place of `datetime.now(timezone.utc)`. -/
def choose_best_candidate (now : ℚ) (cands : List Candidate) : Option Candidate :=
  match activePool cands with
  | [] => none
  | h :: t => some (pickBest now h t)

/-- Python `str.lower()` (ASCII case folding, as used by the classifier). -/
def strLower (s : String) : String := String.mk (s.data.map Char.toLower)

/-- Python substring containment `pat in s`. -/
def strContains (s pat : String) : Bool :=
  (List.range (s.data.length + 1)).any (fun i => pat.data.isPrefixOf (s.data.drop i))

/-- analysis.py lines 53-72, `_classify_market`: nested first-match rules
over the lowercased question and group-item title. -/
def classify_market (question group_item_title : String) : String :=
  let q := strLower question
  let g := strLower group_item_title
  if g == "match winner" || (strContains g "winner" && !strContains g "game") then "moneyline"
  else if strContains q "handicap" || strContains g "handicap" then "handicap"
  else if strContains q "total" || strContains q "o/u" || strContains q "over/under" then "total"
  else if (strContains q "will" && strContains q "win") || strContains g "winner" then
    if strContains q "game" || strContains q "map" || strContains g "game" then "game_winner"
    else "moneyline"
  else if strContains q "kill" || strContains q "first" || strContains q "tower" || strContains q "baron" || strContains q "dragon" then "prop"
  else if strContains q "will" && (strContains q "win" || strContains q "end in a draw") then "moneyline"
  else "other"

/-- The classifier of §4.8 of the spec, restated as an explicit ordered list
of (condition, category) rules: the ordered rules the claim says the code
evaluates first-match. -/
def classifierRules (question group_item_title : String) : List (Bool × String) :=
  let q := strLower question
  let g := strLower group_item_title
  [ (g == "match winner" || (strContains g "winner" && !strContains g "game"), "moneyline"),
    (strContains q "handicap" || strContains g "handicap", "handicap"),
    (strContains q "total" || strContains q "o/u" || strContains q "over/under", "total"),
    ((strContains q "will" && strContains q "win") || strContains g "winner",
      if strContains q "game" || strContains q "map" || strContains g "game" then "game_winner"
      else "moneyline"),
    (strContains q "kill" || strContains q "first" || strContains q "tower" || strContains q "baron" || strContains q "dragon", "prop"),
    (strContains q "will" && (strContains q "win" || strContains q "end in a draw"), "moneyline") ]

/-- Category of the first matching rule, default "other". -/
def firstMatchCategory (rules : List (Bool × String)) : String :=
  match rules.find? (fun rule => rule.1) with
  | some rule => rule.2
  | none => "other"

/-- config.py line 23: default EV gate minimum (`EV_MIN`). -/
def SETTINGS_ev_min : ℚ := 0.02

/-- config.py line 24: default liquidity gate minimum (`LIQ_MIN`). -/
def SETTINGS_liq_min : ℚ := 2000

/-- config.py line 25: default spread gate maximum (`SPREAD_MAX`). -/
def SETTINGS_spread_max : ℚ := 0.05

/-- analysis.py line 439: the fixed spread cost the per-outcome valuation of
`analyze` actually uses (`spread_cost = 0.002`). -/
def analyze_spread_cost : ℚ := 0.002

/-- analysis.py line 440: `edge = fair - o.price - spread_cost`. -/
def analyze_edge (fair price : ℚ) : ℚ := fair - price - analyze_spread_cost

/-- analysis.py line 441: `ev = edge / o.price * 100 if o.price > 0 else 0`. -/
def analyze_ev_pct (fair price : ℚ) : ℚ :=
  if 0 < price then analyze_edge fair price / price * 100 else 0

/-- analysis.py line 444: `overround_bonus = (total_prob - 1.0) * 50 if
total_prob > 1.0 else 0`. -/
def analyze_overround_bonus (total_prob : ℚ) : ℚ :=
  if 1 < total_prob then (total_prob - 1) * 50 else 0

/-- analysis.py lines 541-550: the verdict emitted for an outcome is a
function of the EV percentage alone. -/
def analyze_verdict (ev_pct : ℚ) : String :=
  if 2 < ev_pct then "🟢 강력 추천"
  else if 0.5 < ev_pct then "🟡 추천"
  else if -0.5 < ev_pct then "⚪ 소액 가능"
  else if -2 < ev_pct then "🟠 비추천"
  else "🔴 패스"

/-- Candidate "A" of the selection scenario (liquidity 1000, volume 500,
start +5h = 18000 s from `now = 0`). -/
def candA : Candidate :=
  { title := "A", slug := "a", active := true, closed := false, liquidity := 1000,
    volume24hr := 500, start_date := some 18000 }

/-- Candidate "B" of the selection scenario (liquidity 2000, volume 100,
start +10h). -/
def candB : Candidate :=
  { title := "B", slug := "b", active := true, closed := false, liquidity := 2000,
    volume24hr := 100, start_date := some 36000 }

/-- Candidate "C" of the selection scenario (liquidity 2000, volume 300,
start +20h). -/
def candC : Candidate :=
  { title := "C", slug := "c", active := true, closed := false, liquidity := 2000,
    volume24hr := 300, start_date := some 72000 }

theorem sum_map_div (l : List ℚ) (c : ℚ) : (l.map (fun v => v / c)).sum = l.sum / c := by
  induction l with
  | nil => simp
  | cons h t ih => simp [ih, add_div]

theorem sum_map_clamp (l : List ℚ) : (l.map (fun v => max 0 v)).sum = (l.filter (fun v => 0 ≤ v)).sum := by
  induction l with
  | nil => rfl
  | cons h t ih =>
    by_cases h0 : 0 ≤ h
    · simp [List.filter_cons, h0, ih, max_eq_right h0]
    · simp [List.filter_cons, h0, ih, max_eq_left (le_of_not_le h0)]

theorem dictTotal_nonneg (d : Dict) : 0 ≤ dictTotal d := by
  apply List.sum_nonneg
  intro x hx
  have h := (List.mem_filter.1 hx).2
  simpa using h

theorem dictKeys_normalize_probs (d : Dict) : dictKeys (normalize_probs d) = dictKeys d := by
  unfold normalize_probs dictKeys
  by_cases h : dictTotal d ≤ 0
  · simp [h]
  · simp [h]

theorem dictValues_map_value (d : Dict) (g : ℚ → ℚ) :
    dictValues (d.map (fun kv => (kv.1, g kv.2))) = (dictValues d).map g := by
  unfold dictValues
  simp

theorem sumValues_normalize_probs_pos (d : Dict) (h : 0 < dictTotal d) :
    sumValues (normalize_probs d) = 1 := by
  unfold normalize_probs sumValues
  rw [if_neg (not_le.2 h)]
  rw [dictValues_map_value d (fun v => max 0 v / dictTotal d)]
  have hmm : (dictValues d).map (fun v => max 0 v / dictTotal d)
      = ((dictValues d).map (fun v => max 0 v)).map (fun v => v / dictTotal d) := by
    simp [List.map_map, Function.comp]
  rw [hmm, sum_map_div, sum_map_clamp]
  exact div_self (ne_of_gt h)

theorem sumValues_normalize_probs_nonpos (d : Dict) (h : dictTotal d ≤ 0) :
    sumValues (normalize_probs d) = 0 := by
  unfold normalize_probs sumValues
  rw [if_pos h, dictValues_map_value d (fun _ => 0)]
  induction (dictValues d) with
  | nil => rfl
  | cons x t ih => simp [ih]

/-- C7: for every mapping of outcomes to raw weights, the Probability
Normalizer clamps negative weights to 0, returns every outcome mapped to 0.0
(without raising and without dividing by zero) when the sum of the
non-negative weights is ≤ 0, and otherwise returns each clamped weight
divided by that sum, so the output sums exactly to 1 (to 0 in the degenerate
case). -/
theorem normalize_probs_spec (values : Dict) :
    (dictTotal values ≤ 0 →
      normalize_probs values = values.map (fun kv => (kv.1, 0)) ∧
      sumValues (normalize_probs values) = 0) ∧
    (0 < dictTotal values →
      normalize_probs values = values.map (fun kv => (kv.1, max 0 kv.2 / dictTotal values)) ∧
      sumValues (normalize_probs values) = 1) := by
  constructor
  · intro h
    refine ⟨?_, sumValues_normalize_probs_nonpos values h⟩
    unfold normalize_probs
    rw [if_pos h]
  · intro h
    refine ⟨?_, sumValues_normalize_probs_pos values h⟩
    unfold normalize_probs
    rw [if_neg (not_le.2 h)]

/-- Witness for C7 at the concrete inputs {A:2, B:-1} (positive total) and
{A:-3} (degenerate total). -/
theorem normalize_probs_spec_witness :
    (normalize_probs [("A", (2 : ℚ)), ("B", -1)] = [("A", 1), ("B", 0)] ∧
      sumValues (normalize_probs [("A", (2 : ℚ)), ("B", -1)]) = 1) ∧
    (normalize_probs [("A", (-3 : ℚ))] = [("A", 0)] ∧
      sumValues (normalize_probs [("A", (-3 : ℚ))]) = 0) := by
  have h1 := (normalize_probs_spec [("A", (2 : ℚ)), ("B", -1)]).2
    (by norm_num [dictTotal, dictValues])
  have h2 := (normalize_probs_spec [("A", (-3 : ℚ))]).1
    (by norm_num [dictTotal, dictValues])
  refine ⟨⟨?_, h1.2⟩, ⟨?_, h2.2⟩⟩
  · rw [h1.1]; norm_num [dictTotal, dictValues]
  · rw [h2.1]; simp

theorem dictTotal_of_all_nonneg (d : Dict) (h : ∀ v ∈ dictValues d, 0 ≤ v) :
    dictTotal d = (dictValues d).sum := by
  unfold dictTotal
  rw [List.filter_eq_self.2 (fun v hv => by simpa using h v hv)]

/-- C8: for every mapping of outcomes to decimal odds, the De-vig Converter
excludes every entry with odds ≤ 1.0, inverts each remaining odds value and
normalizes the result into a probability distribution over exactly the
outcomes with valid odds; de-vig of {A:1.9, B:1.9} is {A:0.5, B:0.5}
(exactly, hence within 1e-4). -/
theorem devig_decimal_odds_spec (odds : Dict) :
    devig_decimal_odds odds
      = normalize_probs ((odds.filter (fun kv => 1 < kv.2)).map (fun kv => (kv.1, 1 / kv.2))) ∧
    (∀ k, k ∈ dictKeys (devig_decimal_odds odds) ↔ ∃ v, (k, v) ∈ odds ∧ 1 < v) ∧
    ((∃ kv ∈ odds, 1 < kv.2) → sumValues (devig_decimal_odds odds) = 1) ∧
    devig_decimal_odds [("A", 1.9), ("B", 1.9)] = [("A", 0.5), ("B", 0.5)] := by
  refine ⟨rfl, ?_, ?_, ?_⟩
  · intro k
    unfold devig_decimal_odds
    rw [dictKeys_normalize_probs]
    simp only [dictKeys, List.map_map, List.mem_map, Function.comp, List.mem_filter,
      decide_eq_true_eq]
    constructor
    · rintro ⟨⟨k', v⟩, ⟨hmem, hv⟩, rfl⟩
      exact ⟨v, hmem, hv⟩
    · rintro ⟨v, hmem, hv⟩
      exact ⟨(k, v), ⟨hmem, hv⟩, rfl⟩
  · rintro ⟨kv, hmem, hv⟩
    apply sumValues_normalize_probs_pos
    have hvals : dictValues ((odds.filter (fun kv => 1 < kv.2)).map (fun kv => (kv.1, 1 / kv.2)))
        = (odds.filter (fun kv => 1 < kv.2)).map (fun kv => 1 / kv.2) := by
      simp [dictValues, List.map_map, Function.comp]
    have hpos : ∀ v ∈ (odds.filter (fun kv => 1 < kv.2)).map (fun kv => 1 / kv.2), 0 < v := by
      intro v hvv
      rcases List.mem_map.1 hvv with ⟨kv', hkv', rfl⟩
      have h1 : (1 : ℚ) < kv'.2 := by simpa using (List.mem_filter.1 hkv').2
      exact div_pos one_pos (by linarith)
    have hne : (odds.filter (fun kv => 1 < kv.2)).map (fun kv => 1 / kv.2) ≠ [] := by
      have hmem2 : kv ∈ odds.filter (fun kv => 1 < kv.2) :=
        List.mem_filter.2 ⟨hmem, by simpa using hv⟩
      simp only [ne_eq, List.map_eq_nil_iff]
      intro hnil
      rw [hnil] at hmem2
      exact List.not_mem_nil kv hmem2
    rw [dictTotal_of_all_nonneg _ (by
      rw [hvals]
      intro v hvv
      exact le_of_lt (hpos v hvv))]
    rw [hvals]
    exact List.sum_pos _ hpos hne
  · unfold devig_decimal_odds normalize_probs
    norm_num [dictTotal, dictValues]

/-- Witness for C8: the normalization clause applied at the two-way odds
{A:1.9, B:1.9}. -/
theorem devig_decimal_odds_spec_witness :
    sumValues (devig_decimal_odds [("A", (1.9 : ℚ)), ("B", 1.9)]) = 1 :=
  (devig_decimal_odds_spec [("A", (1.9 : ℚ)), ("B", 1.9)]).2.2.1
    ⟨("A", 1.9), by simp, by norm_num⟩

/-- C4: the Kelly sizer returns `max(0, ((b*p - (1-p))/b) * max(0, f))` with
`b = (1-price)/price` whenever its guards pass; its result is always ≥ 0;
and it is exactly 0 whenever the price is outside (0,1), or the probability
is outside [0,1], or the probability is at most the price. -/
theorem fractional_kelly_fraction_spec (prob price fraction : ℚ) :
    0 ≤ fractional_kelly_fraction prob price fraction ∧
    (0 < price → price < 1 → 0 ≤ prob → prob ≤ 1 →
      fractional_kelly_fraction prob price fraction =
        max 0 ((((1 - price) / price) * prob - (1 - prob)) / ((1 - price) / price)
          * max 0 fraction)) ∧
    (¬ (0 < price ∧ price < 1) → fractional_kelly_fraction prob price fraction = 0) ∧
    (¬ (0 ≤ prob ∧ prob ≤ 1) → fractional_kelly_fraction prob price fraction = 0) ∧
    (prob ≤ price → fractional_kelly_fraction prob price fraction = 0) := by
  refine ⟨?_, ?_, ?_, ?_, ?_⟩
  · unfold fractional_kelly_fraction
    split
    · exact le_refl 0
    · exact le_max_left 0 _
  · intro h1 h2 h3 h4
    unfold fractional_kelly_fraction
    rw [if_neg]
    push_neg
    exact ⟨⟨h1, h2⟩, h3, h4⟩
  · intro h
    unfold fractional_kelly_fraction
    rw [if_pos (Or.inl h)]
  · intro h
    unfold fractional_kelly_fraction
    rw [if_pos (Or.inr h)]
  · intro hpp
    by_cases hg : ¬ (0 < price ∧ price < 1) ∨ ¬ (0 ≤ prob ∧ prob ≤ 1)
    · unfold fractional_kelly_fraction
      rw [if_pos hg]
    · push_neg at hg
      obtain ⟨⟨hp1, hp2⟩, hq1, hq2⟩ := hg
      unfold fractional_kelly_fraction
      rw [if_neg (by push_neg; exact ⟨⟨hp1, hp2⟩, hq1, hq2⟩)]
      have hb : 0 < (1 - price) / price := div_pos (by linarith) hp1
      have hnum : (1 - price) / price * prob - (1 - prob) = (prob - price) / price := by
        field_simp
        ring
      have hkelly : ((1 - price) / price * prob - (1 - prob)) / ((1 - price) / price) ≤ 0 := by
        apply div_nonpos_of_nonpos_of_nonneg
        · rw [hnum]
          apply div_nonpos_of_nonpos_of_nonneg (by linarith) (le_of_lt hp1)
        · exact le_of_lt hb
      have hmul : ((1 - price) / price * prob - (1 - prob)) / ((1 - price) / price)
          * max 0 fraction ≤ 0 :=
        mul_nonpos_iff.2 (Or.inr ⟨hkelly, le_max_left 0 fraction⟩)
      simpa using max_eq_left hmul

/-- Witness for C4: the formula clause at (p, price, f) = (0.55, 0.5, 0.25)
(value 0.025) and the zero clause at p = 0.4 ≤ price = 0.5. -/
theorem fractional_kelly_fraction_spec_witness :
    fractional_kelly_fraction 0.55 0.5 0.25 =
      max 0 ((((1 - 0.5) / 0.5) * 0.55 - (1 - 0.55)) / ((1 - 0.5) / 0.5) * max 0 0.25) ∧
    fractional_kelly_fraction 0.4 0.5 0.25 = 0 :=
  ⟨(fractional_kelly_fraction_spec 0.55 0.5 0.25).2.1 (by norm_num) (by norm_num)
      (by norm_num) (by norm_num),
    (fractional_kelly_fraction_spec 0.4 0.5 0.25).2.2.2.2 (by norm_num)⟩

theorem slippage_heuristic_antitone {l1 l2 : ℚ} (h : l1 ≤ l2) :
    slippage_heuristic (some l2) ≤ slippage_heuristic (some l1) := by
  show (if l2 < 2000 then (0.03 : ℚ) else if l2 < 10000 then 0.015 else 0.0075)
    ≤ (if l1 < 2000 then (0.03 : ℚ) else if l1 < 10000 then 0.015 else 0.0075)
  rcases lt_or_le l1 2000 with h1 | h1
  · rw [if_pos h1]
    rcases lt_or_le l2 2000 with h2 | h2
    · rw [if_pos h2]
    · rw [if_neg (not_lt.2 h2)]
      rcases lt_or_le l2 10000 with h3 | h3
      · rw [if_pos h3]; norm_num
      · rw [if_neg (not_lt.2 h3)]; norm_num
  · have h2 : ¬ l2 < 2000 := not_lt.2 (le_trans h1 h)
    rw [if_neg (not_lt.2 h1), if_neg h2]
    rcases lt_or_le l1 10000 with h3 | h3
    · rw [if_pos h3]
      rcases lt_or_le l2 10000 with h4 | h4
      · rw [if_pos h4]
      · rw [if_neg (not_lt.2 h4)]; norm_num
    · rw [if_neg (not_lt.2 h3), if_neg (not_lt.2 (le_trans h3 h))]

/-- C9: the Cost Model is deterministic and monotonic in liquidity — for
every outcome and every pair of known liquidity values l1 ≤ l2, the total
estimated cost at l1 is at least the total at l2 — and the slippage
component follows the step function unknown → 0.02, < 2000 → 0.03,
< 10000 → 0.015, otherwise 0.0075. -/
theorem estimate_cost_monotone_spec (outcome : Outcome) (l1 l2 : ℚ) (h : l1 ≤ l2) :
    (estimate_cost_for_outcome outcome (some l2)).total
      ≤ (estimate_cost_for_outcome outcome (some l1)).total ∧
    slippage_heuristic none = 0.02 ∧
    (l1 < 2000 → slippage_heuristic (some l1) = 0.03) ∧
    (2000 ≤ l1 → l1 < 10000 → slippage_heuristic (some l1) = 0.015) ∧
    (10000 ≤ l1 → slippage_heuristic (some l1) = 0.0075) := by
  refine ⟨?_, rfl, ?_, ?_, ?_⟩
  · have hs := slippage_heuristic_antitone h
    unfold estimate_cost_for_outcome CostBreakdown.total
    simp only
    linarith
  · intro h1
    simp [slippage_heuristic, h1]
  · intro h1 h2
    simp [slippage_heuristic, not_lt.2 h1, h2]
  · intro h1
    simp [slippage_heuristic, not_lt.2 (by linarith : (2000 : ℚ) ≤ l1), not_lt.2 h1]

/-- Witness for C9 at the outcome of test_costs.py and the liquidity pair
1000 ≤ 15000. -/
theorem estimate_cost_monotone_spec_witness :
    (estimate_cost_for_outcome
        { name := "Yes", price := 0.54, spread := some 0.02, fee_rate_bps := some 30 }
        (some 15000)).total
      ≤ (estimate_cost_for_outcome
        { name := "Yes", price := 0.54, spread := some 0.02, fee_rate_bps := some 30 }
        (some 1000)).total ∧
    slippage_heuristic (some (1000 : ℚ)) = 0.03 :=
  ⟨(estimate_cost_monotone_spec
      { name := "Yes", price := 0.54, spread := some 0.02, fee_rate_bps := some 30 }
      1000 15000 (by norm_num)).1,
    (estimate_cost_monotone_spec
      { name := "Yes", price := 0.54, spread := some 0.02, fee_rate_bps := some 30 }
      1000 15000 (by norm_num)).2.2.1 (by norm_num)⟩

/-- C10: for every outcome whose spread is unknown or ≥ 0 and whose fee rate
is unknown or ≥ 0, and every liquidity value (known or unknown), the cost
breakdown has all three components ≥ 0 and a total of at least 0.0075 > 0,
so net expected value (edge minus total) is always strictly below the raw
edge. -/
theorem estimate_cost_positive_spec (outcome : Outcome) (liquidity : Option ℚ)
    (hs : ∀ s, outcome.spread = some s → 0 ≤ s)
    (hf : ∀ f, outcome.fee_rate_bps = some f → 0 ≤ f) :
    0 ≤ (estimate_cost_for_outcome outcome liquidity).spread ∧
    0 ≤ (estimate_cost_for_outcome outcome liquidity).fee ∧
    0 ≤ (estimate_cost_for_outcome outcome liquidity).slippage ∧
    0.0075 ≤ (estimate_cost_for_outcome outcome liquidity).total ∧
    ∀ edge : ℚ, edge - (estimate_cost_for_outcome outcome liquidity).total < edge := by
  have hslip : (0.0075 : ℚ) ≤ slippage_heuristic liquidity := by
    unfold slippage_heuristic
    match liquidity with
    | none => norm_num
    | some l =>
      by_cases h1 : l < 2000 <;> by_cases h2 : l < 10000 <;> simp [h1, h2] <;> norm_num
  have hspread : 0 ≤ (estimate_cost_for_outcome outcome liquidity).spread := by
    unfold estimate_cost_for_outcome
    simp only
    match hcase : outcome.spread with
    | some s =>
      have := hs s hcase
      positivity
    | none => norm_num
  have hfee : 0 ≤ (estimate_cost_for_outcome outcome liquidity).fee := by
    unfold estimate_cost_for_outcome
    simp only
    match hcase : outcome.fee_rate_bps with
    | some f =>
      have := hf f hcase
      simp only [Option.getD]
      positivity
    | none => norm_num
  have htotal : (0.0075 : ℚ) ≤ (estimate_cost_for_outcome outcome liquidity).total := by
    have h1 : (estimate_cost_for_outcome outcome liquidity).slippage
        = slippage_heuristic liquidity := rfl
    unfold CostBreakdown.total
    rw [h1]
    linarith
  refine ⟨hspread, hfee, by rw [show (estimate_cost_for_outcome outcome liquidity).slippage
    = slippage_heuristic liquidity from rfl]; linarith, htotal, ?_⟩
  intro edge
  have : 0 < (estimate_cost_for_outcome outcome liquidity).total := by linarith
  linarith

/-- Witness for C10 at the outcome of test_costs.py (spread 0.02, fee rate
30 bps, liquidity 15000): total cost 0.0205 ≥ 0.0075. -/
theorem estimate_cost_positive_spec_witness :
    0.0075 ≤ (estimate_cost_for_outcome
      { name := "Yes", price := 0.54, spread := some 0.02, fee_rate_bps := some 30 }
      (some 15000)).total :=
  (estimate_cost_positive_spec
    { name := "Yes", price := 0.54, spread := some 0.02, fee_rate_bps := some 30 }
    (some 15000)
    (by intro s h; injection h with h; rw [← h]; norm_num)
    (by intro f h; injection h with h; rw [← h]; norm_num)).2.2.2.1

/-- C1 (failing input, fair = 0.6, price = 0.5, snapshot liquidity = 1000,
spread unknown): the per-outcome valuation that `analyze` actually performs
(analysis.py lines 438-456 and 528-550) subtracts a fixed 0.002 cost inside
its "edge" — so edge ≠ fair − price — and emits its strongest recommend
verdict from the EV percentage alone, although the snapshot liquidity 1000
is below the configured liquidity minimum 2000 (config.py line 24), the
three gates of the claim are never consulted, no gate-failure report exists,
and the Cost Model total (here 0.04 for unknown spread, no fee, liquidity
1000) is ignored in favour of the constant 0.002. -/
theorem analyze_decision_ignores_gates :
    analyze_edge 0.6 0.5 = 0.6 - 0.5 - analyze_spread_cost ∧
    analyze_edge 0.6 0.5 ≠ 0.6 - 0.5 ∧
    analyze_ev_pct 0.6 0.5 = 19.6 ∧
    analyze_verdict (analyze_ev_pct 0.6 0.5 + analyze_overround_bonus 1) = "🟢 강력 추천" ∧
    (1000 : ℚ) < SETTINGS_liq_min ∧
    (estimate_cost_for_outcome { name := "Yes", price := 0.5 } (some 1000)).total = 0.04 ∧
    analyze_spread_cost ≠
      (estimate_cost_for_outcome { name := "Yes", price := 0.5 } (some 1000)).total := by
  refine ⟨rfl, ?_, ?_, ?_, ?_, ?_, ?_⟩
  · norm_num [analyze_edge, analyze_spread_cost]
  · norm_num [analyze_ev_pct, analyze_edge, analyze_spread_cost]
  · have hev : analyze_ev_pct 0.6 0.5 + analyze_overround_bonus 1 = 19.6 := by
      norm_num [analyze_ev_pct, analyze_edge, analyze_spread_cost, analyze_overround_bonus]
    rw [hev]
    unfold analyze_verdict
    rw [if_pos (by norm_num)]
  · norm_num [SETTINGS_liq_min]
  · norm_num [estimate_cost_for_outcome, CostBreakdown.total, slippage_heuristic]
  · norm_num [estimate_cost_for_outcome, CostBreakdown.total, slippage_heuristic,
      analyze_spread_cost]

theorem dictTruthy_of_ne_nil {d : Dict} (h : d ≠ []) : dictTruthy (some d) = true := by
  cases d with
  | nil => exact absurd rfl h
  | cons a t => rfl

theorem lookup_eq_none_of_not_mem_keys (d : Dict) (k : String) (h : k ∉ dictKeys d) :
    List.lookup k d = none := by
  induction d with
  | nil => rfl
  | cons hd t ih =>
    have h1 : k ≠ hd.1 := fun he => h (by simp [dictKeys, he])
    have h2 : k ∉ dictKeys t := fun he => h (by simp [dictKeys] at he ⊢; exact Or.inr he)
    simp [List.lookup, beq_eq_false_iff_ne.2 h1, ih h2]

theorem dictGet_of_not_mem_keys (d : Dict) (k : String) (p : ℚ) (h : k ∉ dictKeys d) :
    dictGet d k p = p := by
  unfold dictGet
  rw [lookup_eq_none_of_not_mem_keys d k h]

/-- C2: the blend is computed per outcome with the fixed weights — market
only: the normalized market prices with the "no external reference" label;
market+mid: 0.6*mid + 0.4*market; market+reference: 0.7*reference +
0.3*market; all three: 0.5*reference + 0.3*mid + 0.2*market — then
normalized so the output sums to 1 (whenever the clamped weight total is
positive), and the returned label identifies the source combination used. -/
theorem blended_fair_probs_spec (prices m r : Dict) :
    blended_fair_probs prices none none
      = (normalize_probs prices, "NO EDGE (no external reference)") ∧
    blended_fair_probs prices (some []) (some [])
      = (normalize_probs prices, "NO EDGE (no external reference)") ∧
    (m ≠ [] →
      blended_fair_probs prices (some m) none
        = (normalize_probs (blendedMid prices m), "Blended 60% mid / 40% market")) ∧
    (r ≠ [] →
      blended_fair_probs prices none (some r)
        = (normalize_probs (blendedRef prices r), "Blended 70% ref / 30% market")) ∧
    (m ≠ [] → r ≠ [] →
      blended_fair_probs prices (some m) (some r)
        = (normalize_probs (blended3 prices m r), "Blended 50% ref / 30% mid / 20% market")) ∧
    (∀ o, blendWeightMid prices m o
      = 0.6 * dictGet m o (dictGet prices o 0) + 0.4 * dictGet prices o 0) ∧
    (∀ o, blendWeightRef prices r o
      = 0.7 * dictGet r o (dictGet prices o 0) + 0.3 * dictGet prices o 0) ∧
    (∀ o, blendWeight3 prices m r o
      = 0.5 * dictGet r o (dictGet prices o 0) + 0.3 * dictGet m o (dictGet prices o 0)
        + 0.2 * dictGet prices o 0) ∧
    (0 < dictTotal prices → sumValues (blended_fair_probs prices none none).1 = 1) ∧
    (m ≠ [] → 0 < dictTotal (blendedMid prices m) →
      sumValues (blended_fair_probs prices (some m) none).1 = 1) ∧
    (r ≠ [] → 0 < dictTotal (blendedRef prices r) →
      sumValues (blended_fair_probs prices none (some r)).1 = 1) ∧
    (m ≠ [] → r ≠ [] → 0 < dictTotal (blended3 prices m r) →
      sumValues (blended_fair_probs prices (some m) (some r)).1 = 1) := by
  have hmid : ∀ hm : m ≠ [], blended_fair_probs prices (some m) none
      = (normalize_probs (blendedMid prices m), "Blended 60% mid / 40% market") := by
    intro hm
    cases m with
    | nil => exact absurd rfl hm
    | cons a t => rfl
  have href : ∀ hr : r ≠ [], blended_fair_probs prices none (some r)
      = (normalize_probs (blendedRef prices r), "Blended 70% ref / 30% market") := by
    intro hr
    cases r with
    | nil => exact absurd rfl hr
    | cons a t => rfl
  have hboth : ∀ (hm : m ≠ []) (hr : r ≠ []), blended_fair_probs prices (some m) (some r)
      = (normalize_probs (blended3 prices m r), "Blended 50% ref / 30% mid / 20% market") := by
    intro hm hr
    cases m with
    | nil => exact absurd rfl hm
    | cons a t =>
      cases r with
      | nil => exact absurd rfl hr
      | cons b u => rfl
  refine ⟨rfl, rfl, hmid, href, hboth, fun o => rfl, fun o => rfl, fun o => rfl, ?_, ?_, ?_, ?_⟩
  · intro hpos
    exact sumValues_normalize_probs_pos prices hpos
  · intro hm hpos
    rw [hmid hm]
    exact sumValues_normalize_probs_pos _ hpos
  · intro hr hpos
    rw [href hr]
    exact sumValues_normalize_probs_pos _ hpos
  · intro hm hr hpos
    rw [hboth hm hr]
    exact sumValues_normalize_probs_pos _ hpos

/-- Witness for C2 at prices {A:0.5, B:0.6}, mids {A:0.52},
reference {A:0.45, B:0.55} (the 3-source clauses, hypotheses discharged). -/
theorem blended_fair_probs_spec_witness :
    blended_fair_probs [("A", (0.5 : ℚ)), ("B", 0.6)] (some [("A", 0.52)])
        (some [("A", 0.45), ("B", 0.55)])
      = (normalize_probs
          (blended3 [("A", (0.5 : ℚ)), ("B", 0.6)] [("A", 0.52)] [("A", 0.45), ("B", 0.55)]),
        "Blended 50% ref / 30% mid / 20% market") ∧
    sumValues (blended_fair_probs [("A", (0.5 : ℚ)), ("B", 0.6)] (some [("A", 0.52)])
      (some [("A", 0.45), ("B", 0.55)])).1 = 1 := by
  have hm : ([("A", (0.52 : ℚ))] : Dict) ≠ [] := List.cons_ne_nil _ _
  have hr : ([("A", (0.45 : ℚ)), ("B", 0.55)] : Dict) ≠ [] := List.cons_ne_nil _ _
  have hblend : blended3 [("A", (0.5 : ℚ)), ("B", 0.6)] [("A", 0.52)] [("A", 0.45), ("B", 0.55)]
      = [("A", 481/1000), ("B", 23/40)] := by
    rw [blended3, show blendDomain [[("A", (0.5 : ℚ)), ("B", 0.6)], [("A", (0.52 : ℚ))],
      [("A", (0.45 : ℚ)), ("B", 0.55)]] = ["A", "B"] from by decide]
    simp only [List.map_cons, List.map_nil, blendWeight3, dictGet, List.lookup,
      show ("B" == "A") = false from by decide]
    norm_num
  refine ⟨(blended_fair_probs_spec [("A", (0.5 : ℚ)), ("B", 0.6)] [("A", 0.52)]
    [("A", 0.45), ("B", 0.55)]).2.2.2.2.1 hm hr, ?_⟩
  exact (blended_fair_probs_spec [("A", (0.5 : ℚ)), ("B", 0.6)] [("A", 0.52)]
    [("A", 0.45), ("B", 0.55)]).2.2.2.2.2.2.2.2.2.2.2 hm hr
    (by rw [hblend]; norm_num [dictTotal, dictValues])

/-- C3: in the Blending Engine the output domain is the union of outcome
names across all present sources, and a present source that lacks a value
for an outcome contributes the market price for that outcome (never zero)
to the weighted blend. -/
theorem blended_fair_probs_domain_spec (prices m r : Dict) (o : String) :
    (o ∈ dictKeys (blended_fair_probs prices none none).1 ↔ o ∈ dictKeys prices) ∧
    (m ≠ [] →
      ((o ∈ dictKeys (blended_fair_probs prices (some m) none).1 ↔
          o ∈ dictKeys prices ∨ o ∈ dictKeys m) ∧
        (o ∉ dictKeys m → blendWeightMid prices m o = dictGet prices o 0))) ∧
    (r ≠ [] →
      ((o ∈ dictKeys (blended_fair_probs prices none (some r)).1 ↔
          o ∈ dictKeys prices ∨ o ∈ dictKeys r) ∧
        (o ∉ dictKeys r → blendWeightRef prices r o = dictGet prices o 0))) ∧
    (m ≠ [] → r ≠ [] →
      ((o ∈ dictKeys (blended_fair_probs prices (some m) (some r)).1 ↔
          o ∈ dictKeys prices ∨ o ∈ dictKeys m ∨ o ∈ dictKeys r) ∧
        (o ∉ dictKeys m →
          blendWeight3 prices m r o
            = 0.5 * dictGet r o (dictGet prices o 0) + 0.3 * dictGet prices o 0
              + 0.2 * dictGet prices o 0) ∧
        (o ∉ dictKeys r →
          blendWeight3 prices m r o
            = 0.5 * dictGet prices o 0 + 0.3 * dictGet m o (dictGet prices o 0)
              + 0.2 * dictGet prices o 0))) := by
  have hmid : ∀ hm : m ≠ [], blended_fair_probs prices (some m) none
      = (normalize_probs (blendedMid prices m), "Blended 60% mid / 40% market") := by
    intro hm
    cases m with
    | nil => exact absurd rfl hm
    | cons a t => rfl
  have href : ∀ hr : r ≠ [], blended_fair_probs prices none (some r)
      = (normalize_probs (blendedRef prices r), "Blended 70% ref / 30% market") := by
    intro hr
    cases r with
    | nil => exact absurd rfl hr
    | cons a t => rfl
  have hboth : ∀ (hm : m ≠ []) (hr : r ≠ []), blended_fair_probs prices (some m) (some r)
      = (normalize_probs (blended3 prices m r), "Blended 50% ref / 30% mid / 20% market") := by
    intro hm hr
    cases m with
    | nil => exact absurd rfl hm
    | cons a t =>
      cases r with
      | nil => exact absurd rfl hr
      | cons b u => rfl
  refine ⟨?_, ?_, ?_, ?_⟩
  · show o ∈ dictKeys (normalize_probs prices) ↔ o ∈ dictKeys prices
    rw [dictKeys_normalize_probs]
  · intro hm
    constructor
    · rw [hmid hm]
      show o ∈ dictKeys (normalize_probs (blendedMid prices m)) ↔ _
      rw [dictKeys_normalize_probs]
      simp [blendedMid, dictKeys, blendDomain, allKeys, List.mem_dedup]
    · intro ho
      simp only [blendWeightMid]
      rw [dictGet_of_not_mem_keys m o _ ho]
      ring
  · intro hr
    constructor
    · rw [href hr]
      show o ∈ dictKeys (normalize_probs (blendedRef prices r)) ↔ _
      rw [dictKeys_normalize_probs]
      simp [blendedRef, dictKeys, blendDomain, allKeys, List.mem_dedup]
    · intro ho
      simp only [blendWeightRef]
      rw [dictGet_of_not_mem_keys r o _ ho]
      ring
  · intro hm hr
    refine ⟨?_, ?_, ?_⟩
    · rw [hboth hm hr]
      show o ∈ dictKeys (normalize_probs (blended3 prices m r)) ↔ _
      rw [dictKeys_normalize_probs]
      simp [blended3, dictKeys, blendDomain, allKeys, List.mem_dedup]
    · intro ho
      simp only [blendWeight3]
      rw [dictGet_of_not_mem_keys m o _ ho]
    · intro ho
      simp only [blendWeight3]
      rw [dictGet_of_not_mem_keys r o _ ho]

/-- Witness for C3: with prices {A:0.5, B:0.6}, mids {A:0.52} and reference
{A:0.45, B:0.55}, outcome "B" is missing from the mid source, so the mid
slot of its 3-source weight falls back to the market price 0.6. -/
theorem blended_fair_probs_domain_spec_witness :
    ("B" ∈ dictKeys (blended_fair_probs [("A", (0.5 : ℚ)), ("B", 0.6)] (some [("A", 0.52)])
        (some [("A", 0.45), ("B", 0.55)])).1) ∧
    blendWeight3 [("A", (0.5 : ℚ)), ("B", 0.6)] [("A", 0.52)] [("A", 0.45), ("B", 0.55)] "B"
      = 0.5 * dictGet [("A", (0.45 : ℚ)), ("B", 0.55)] "B" (dictGet [("A", (0.5 : ℚ)), ("B", 0.6)] "B" 0)
        + 0.3 * dictGet [("A", (0.5 : ℚ)), ("B", 0.6)] "B" 0
        + 0.2 * dictGet [("A", (0.5 : ℚ)), ("B", 0.6)] "B" 0 := by
  have h := (blended_fair_probs_domain_spec [("A", (0.5 : ℚ)), ("B", 0.6)] [("A", 0.52)]
    [("A", 0.45), ("B", 0.55)] "B").2.2.2 (List.cons_ne_nil _ _) (List.cons_ne_nil _ _)
  refine ⟨(h.1).2 ?_, h.2.1 ?_⟩
  · left
    simp [dictKeys]
  · simp [dictKeys]

/-- C6: the Market Classifier returns the category of the first matching
rule in the fixed priority order (moneyline, handicap, total,
game_winner-or-moneyline, prop, moneyline, default other) — ties resolved by
priority, not longest match; in particular "Will Manchester City win on
2026-02-14?" with empty group label is moneyline, a question containing
"Handicap" is handicap and a question containing "First Blood" is prop. -/
theorem classify_market_spec :
    (∀ question git, classify_market question git
      = firstMatchCategory (classifierRules question git)) ∧
    classify_market "Will Manchester City win on 2026-02-14?" "" = "moneyline" ∧
    classify_market "Handicap" "" = "handicap" ∧
    classify_market "First Blood" "" = "prop" := by
  refine ⟨?_, by decide, by decide, by decide⟩
  intro question git
  cases hc1 : strLower git == "match winner" || (strContains (strLower git) "winner" && !strContains (strLower git) "game") with
  | true => simp [classify_market, classifierRules, firstMatchCategory, List.find?, hc1]
  | false =>
    cases hc2 : strContains (strLower question) "handicap" || strContains (strLower git) "handicap" with
    | true => simp [classify_market, classifierRules, firstMatchCategory, List.find?, hc1, hc2]
    | false =>
      cases hc3 : strContains (strLower question) "total" || strContains (strLower question) "o/u" || strContains (strLower question) "over/under" with
      | true => simp [classify_market, classifierRules, firstMatchCategory, List.find?, hc1, hc2, hc3]
      | false =>
        cases hc4 : strContains (strLower question) "will" && strContains (strLower question) "win" || strContains (strLower git) "winner" with
        | true => simp [classify_market, classifierRules, firstMatchCategory, List.find?, hc1, hc2, hc3, hc4]
        | false =>
          cases hc5 : strContains (strLower question) "kill" || strContains (strLower question) "first" || strContains (strLower question) "tower" || strContains (strLower question) "baron" || strContains (strLower question) "dragon" with
          | true => simp [classify_market, classifierRules, firstMatchCategory, List.find?, hc1, hc2, hc3, hc4, hc5]
          | false =>
            cases hc6 : strContains (strLower question) "will" && (strContains (strLower question) "win" || strContains (strLower question) "end in a draw") with
            | true => simp [classify_market, classifierRules, firstMatchCategory, List.find?, hc1, hc2, hc3, hc4, hc5, hc6]
            | false => simp [classify_market, classifierRules, firstMatchCategory, List.find?, hc1, hc2, hc3, hc4, hc5, hc6]

theorem cmpQ_lt_iff (x y : ℚ) : cmpQ x y = .lt ↔ x < y := by
  unfold cmpQ
  by_cases h1 : x < y
  · simp [h1]
  · by_cases h2 : y < x <;> simp [h1, h2]

theorem cmpQ_eq_iff (x y : ℚ) : cmpQ x y = .eq ↔ x = y := by
  unfold cmpQ
  by_cases h1 : x < y
  · simp [h1]
    exact ne_of_lt h1
  · by_cases h2 : y < x
    · simp [h1, h2]
      exact ne_of_gt h2
    · simp [h1, h2]
      exact le_antisymm (not_lt.1 h2) (not_lt.1 h1)

theorem cmpQ_gt_iff (x y : ℚ) : cmpQ x y = .gt ↔ y < x := by
  unfold cmpQ
  by_cases h1 : x < y
  · simp [h1, lt_asymm h1]
  · by_cases h2 : y < x <;> simp [h1, h2]

theorem cmpQ_self (x : ℚ) : cmpQ x x = .eq := by simp [cmpQ]

theorem cmpStr_lt_iff (x y : String) : cmpStr x y = .lt ↔ x < y := by
  unfold cmpStr
  by_cases h1 : x < y
  · simp [h1]
  · by_cases h2 : y < x <;> simp [h1, h2]

theorem cmpStr_eq_iff (x y : String) : cmpStr x y = .eq ↔ x = y := by
  unfold cmpStr
  by_cases h1 : x < y
  · simp [h1]
    exact ne_of_lt h1
  · by_cases h2 : y < x
    · simp [h1, h2]
      exact ne_of_gt h2
    · simp [h1, h2]
      exact le_antisymm (not_lt.1 h2) (not_lt.1 h1)

theorem cmpStr_gt_iff (x y : String) : cmpStr x y = .gt ↔ y < x := by
  unfold cmpStr
  by_cases h1 : x < y
  · simp [h1, lt_asymm h1]
  · by_cases h2 : y < x <;> simp [h1, h2]

theorem cmpStr_self (s : String) : cmpStr s s = .eq := by simp [cmpStr]

theorem cmpTime_eq_iff (a b : Option ℚ) : cmpTime a b = .eq ↔ a = b := by
  cases a <;> cases b <;> simp [cmpTime, cmpQ_eq_iff]

theorem cmpTime_gt_iff (a b : Option ℚ) : cmpTime a b = .gt ↔ cmpTime b a = .lt := by
  cases a <;> cases b <;> simp [cmpTime, cmpQ_gt_iff, cmpQ_lt_iff]

theorem cmpTime_self (t : Option ℚ) : cmpTime t t = .eq := by
  cases t <;> simp [cmpTime, cmpQ_self]

theorem cmpTime_lt_trans {a b c : Option ℚ} (h1 : cmpTime a b = .lt) (h2 : cmpTime b c = .lt) :
    cmpTime a c = .lt := by
  cases a with
  | none => cases b <;> simp [cmpTime] at h1
  | some x =>
    cases b with
    | none => cases c <;> simp [cmpTime] at h2
    | some y =>
      cases c with
      | none => simp [cmpTime]
      | some z =>
        simp only [cmpTime] at h1 h2 ⊢
        rw [cmpQ_lt_iff] at h1 h2 ⊢
        exact lt_trans h1 h2

theorem then_eq_lt (x y : Ordering) : x.then y = .lt ↔ x = .lt ∨ (x = .eq ∧ y = .lt) := by
  cases x <;> simp [Ordering.then]

theorem then_eq_eq (x y : Ordering) : x.then y = .eq ↔ x = .eq ∧ y = .eq := by
  cases x <;> simp [Ordering.then]

theorem then_eq_gt (x y : Ordering) : x.then y = .gt ↔ x = .gt ∨ (x = .eq ∧ y = .gt) := by
  cases x <;> simp [Ordering.then]

theorem tupCmp_self (a : ℚ × ℚ × Option ℚ × String) : tupCmp a a = .eq := by
  unfold tupCmp
  rw [cmpQ_self, cmpQ_self, cmpTime_self, cmpStr_self]
  rfl

theorem tupCmp_lt_iff (a b : ℚ × ℚ × Option ℚ × String) :
    tupCmp a b = .lt ↔
      a.1 < b.1 ∨ (a.1 = b.1 ∧ (a.2.1 < b.2.1 ∨ (a.2.1 = b.2.1 ∧
        (cmpTime a.2.2.1 b.2.2.1 = .lt ∨ (a.2.2.1 = b.2.2.1 ∧ a.2.2.2 < b.2.2.2))))) := by
  unfold tupCmp
  rw [then_eq_lt, then_eq_lt, then_eq_lt, cmpQ_lt_iff, cmpQ_eq_iff, cmpQ_lt_iff, cmpQ_eq_iff,
    cmpTime_eq_iff, cmpStr_lt_iff]

theorem tupCmp_lt_of_gt {a b : ℚ × ℚ × Option ℚ × String} (h : tupCmp a b = .gt) :
    tupCmp b a = .lt := by
  unfold tupCmp at h ⊢
  rw [then_eq_gt, then_eq_gt, then_eq_gt, cmpQ_gt_iff, cmpQ_eq_iff, cmpQ_gt_iff, cmpQ_eq_iff,
    cmpTime_gt_iff, cmpTime_eq_iff, cmpStr_gt_iff] at h
  rw [then_eq_lt, then_eq_lt, then_eq_lt, cmpQ_lt_iff, cmpQ_eq_iff, cmpQ_lt_iff, cmpQ_eq_iff,
    cmpTime_eq_iff, cmpStr_lt_iff]
  rcases h with h | ⟨e1, h⟩
  · exact Or.inl h
  · refine Or.inr ⟨e1.symm, ?_⟩
    rcases h with h | ⟨e2, h⟩
    · exact Or.inl h
    · refine Or.inr ⟨e2.symm, ?_⟩
      rcases h with h | ⟨e3, h⟩
      · exact Or.inl h
      · exact Or.inr ⟨e3.symm, h⟩

theorem tupCmp_eq_iff (a b : ℚ × ℚ × Option ℚ × String) : tupCmp a b = .eq ↔ a = b := by
  unfold tupCmp
  rw [then_eq_eq, then_eq_eq, then_eq_eq, cmpQ_eq_iff, cmpQ_eq_iff, cmpTime_eq_iff,
    cmpStr_eq_iff, Prod.ext_iff, Prod.ext_iff, Prod.ext_iff]

theorem tupCmp_lt_trans {a b c : ℚ × ℚ × Option ℚ × String}
    (h1 : tupCmp a b = .lt) (h2 : tupCmp b c = .lt) : tupCmp a c = .lt := by
  rw [tupCmp_lt_iff] at h1 h2 ⊢
  rcases h1 with h1 | ⟨e1, h1⟩
  · rcases h2 with h2 | ⟨e2, h2⟩
    · exact Or.inl (lt_trans h1 h2)
    · exact Or.inl (by rw [← e2]; exact h1)
  · rcases h2 with h2 | ⟨e2, h2⟩
    · exact Or.inl (by rw [e1]; exact h2)
    · refine Or.inr ⟨e1.trans e2, ?_⟩
      rcases h1 with h1 | ⟨f1, h1⟩
      · rcases h2 with h2 | ⟨f2, h2⟩
        · exact Or.inl (lt_trans h1 h2)
        · exact Or.inl (by rw [← f2]; exact h1)
      · rcases h2 with h2 | ⟨f2, h2⟩
        · exact Or.inl (by rw [f1]; exact h2)
        · refine Or.inr ⟨f1.trans f2, ?_⟩
          rcases h1 with h1 | ⟨g1, h1⟩
          · rcases h2 with h2 | ⟨g2, h2⟩
            · exact Or.inl (cmpTime_lt_trans h1 h2)
            · exact Or.inl (by rw [← g2]; exact h1)
          · rcases h2 with h2 | ⟨g2, h2⟩
            · exact Or.inl (by rw [g1]; exact h2)
            · exact Or.inr ⟨g1.trans g2, lt_trans h1 h2⟩

theorem keyLT_irrefl (now : ℚ) (c : Candidate) : keyLT now c c = false := by
  unfold keyLT
  rw [tupCmp_self]
  rfl

theorem ordBeq_lt_iff (o : Ordering) : (o == Ordering.lt) = true ↔ o = Ordering.lt := by
  cases o <;> decide

theorem ordBeq_lt_false_iff (o : Ordering) : (o == Ordering.lt) = false ↔ o ≠ Ordering.lt := by
  cases o <;> decide

theorem keyLT_trans {now : ℚ} {a b c : Candidate}
    (h1 : keyLT now a b = true) (h2 : keyLT now b c = true) : keyLT now a c = true := by
  unfold keyLT at h1 h2 ⊢
  rw [ordBeq_lt_iff] at h1 h2 ⊢
  exact tupCmp_lt_trans h1 h2

theorem keyLT_negtrans {now : ℚ} {a b c : Candidate}
    (h1 : keyLT now a b = false) (h2 : keyLT now b c = false) : keyLT now a c = false := by
  unfold keyLT at h1 h2 ⊢
  rw [ordBeq_lt_false_iff] at h1 h2 ⊢
  cases hab : tupCmp (candKey now a) (candKey now b) with
  | lt => exact absurd hab h1
  | eq =>
    rw [tupCmp_eq_iff] at hab
    rw [hab]
    exact h2
  | gt =>
    cases hbc : tupCmp (candKey now b) (candKey now c) with
    | lt => exact absurd hbc h2
    | eq =>
      rw [tupCmp_eq_iff] at hbc
      rw [← hbc]
      intro hcon
      exact absurd (tupCmp_lt_trans hcon (tupCmp_lt_of_gt hab))
        (by rw [tupCmp_self]; intro h; exact absurd h.symm (by simp))
    | gt =>
      intro hcon
      have hca : tupCmp (candKey now c) (candKey now b) = .lt := tupCmp_lt_of_gt hbc
      have hba : tupCmp (candKey now b) (candKey now a) = .lt := tupCmp_lt_of_gt hab
      have : tupCmp (candKey now c) (candKey now a) = .lt := tupCmp_lt_trans hca hba
      have hself : tupCmp (candKey now a) (candKey now a) = .lt := tupCmp_lt_trans hcon this
      rw [tupCmp_self] at hself
      exact absurd hself.symm (by simp)

theorem pickBest_mem (now : ℚ) (b : Candidate) (l : List Candidate) :
    pickBest now b l ∈ b :: l := by
  induction l generalizing b with
  | nil => exact List.mem_singleton.2 rfl
  | cons c rest ih =>
    show pickBest now (if keyLT now c b then c else b) rest ∈ b :: c :: rest
    by_cases h : keyLT now c b = true
    · rw [if_pos h]
      rcases List.mem_cons.1 (ih c) with h1 | h1
      · exact List.mem_cons.2 (Or.inr (List.mem_cons.2 (Or.inl h1)))
      · exact List.mem_cons.2 (Or.inr (List.mem_cons.2 (Or.inr h1)))
    · rw [if_neg h]
      rcases List.mem_cons.1 (ih b) with h1 | h1
      · exact List.mem_cons.2 (Or.inl h1)
      · exact List.mem_cons.2 (Or.inr (List.mem_cons.2 (Or.inr h1)))

theorem pickBest_not_lt (now : ℚ) (b : Candidate) (l : List Candidate) :
    ∀ c ∈ b :: l, keyLT now c (pickBest now b l) = false := by
  induction l generalizing b with
  | nil =>
    intro c hc
    have hcb := List.mem_singleton.1 hc
    subst hcb
    exact keyLT_irrefl now c
  | cons d rest ih =>
    intro c hc
    show keyLT now c (pickBest now (if keyLT now d b then d else b) rest) = false
    cases h : keyLT now d b with
    | true =>
      rw [if_pos rfl]
      rcases List.mem_cons.1 hc with rfl | hc'
      · have hd := ih d d (List.mem_cons_self d rest)
        cases hb : keyLT now c (pickBest now d rest) with
        | false => rfl
        | true => exact absurd (keyLT_trans h hb) (by rw [hd]; simp)
      · rcases List.mem_cons.1 hc' with rfl | hc''
        · exact ih c c (List.mem_cons_self c rest)
        · exact ih d c (List.mem_cons.2 (Or.inr hc''))
    | false =>
      rw [if_neg (by simp)]
      rcases List.mem_cons.1 hc with rfl | hc'
      · exact ih c c (List.mem_cons_self c rest)
      · rcases List.mem_cons.1 hc' with rfl | hc''
        · exact keyLT_negtrans h (ih b b (List.mem_cons_self b rest))
        · exact ih b c (List.mem_cons.2 (Or.inr hc''))

/-- C5: the selector filters to active, not-closed, non-empty-slug
candidates, restricts to sports-related ones only when at least one such
exists, returns an explicit "no candidate" (`none`) exactly when the
resulting pool is empty, and otherwise returns a pool member that no pool
member sorts strictly before under the ordering liquidity desc, volume
desc, time distance asc (unknown last), slug asc; for the three active
candidates with liquidities {1000,2000,2000}, volumes {500,100,300} and
starts +5h/+10h/+20h, the liquidity-2000 volume-300 candidate is chosen. -/
theorem choose_best_candidate_spec (now : ℚ) (cands : List Candidate) :
    (choose_best_candidate now cands = none ↔ activePool cands = []) ∧
    (∀ c, c ∈ activePool cands ↔
      (c ∈ cands ∧ c.active = true ∧ c.closed = false ∧ c.slug.isEmpty = false ∧
        (sportsPool cands ≠ [] → c.sports_related = true))) ∧
    (∀ c, choose_best_candidate now cands = some c →
      c ∈ activePool cands ∧ ∀ d ∈ activePool cands, keyLT now d c = false) ∧
    choose_best_candidate 0 [candA, candB, candC] = some candC := by
  refine ⟨?_, ?_, ?_, by decide⟩
  · unfold choose_best_candidate
    cases hap : activePool cands with
    | nil => simp
    | cons h t => simp
  · intro c
    have hcp : c ∈ candidatePool cands ↔
        (c ∈ cands ∧ c.active = true ∧ c.closed = false ∧ c.slug.isEmpty = false) := by
      unfold candidatePool
      rw [List.mem_filter]
      constructor
      · rintro ⟨h1, h2⟩
        simp only [Bool.and_eq_true, Bool.not_eq_true'] at h2
        exact ⟨h1, h2.1.1, h2.1.2, h2.2⟩
      · rintro ⟨h1, h2, h3, h4⟩
        refine ⟨h1, ?_⟩
        simp only [Bool.and_eq_true, Bool.not_eq_true']
        exact ⟨⟨h2, h3⟩, h4⟩
    unfold activePool
    by_cases hsp : (sportsPool cands).isEmpty
    · rw [if_pos hsp]
      have hspe : sportsPool cands = [] := List.isEmpty_iff.1 hsp
      rw [hcp]
      constructor
      · rintro ⟨h1, h2, h3, h4⟩
        exact ⟨h1, h2, h3, h4, fun hcon => absurd hspe hcon⟩
      · rintro ⟨h1, h2, h3, h4, _⟩
        exact ⟨h1, h2, h3, h4⟩
    · rw [if_neg hsp]
      have hspe : sportsPool cands ≠ [] := by
        intro hcon
        rw [hcon] at hsp
        exact hsp rfl
      unfold sportsPool
      rw [List.mem_filter, hcp]
      constructor
      · rintro ⟨⟨h1, h2, h3, h4⟩, h5⟩
        exact ⟨h1, h2, h3, h4, fun _ => by simpa using h5⟩
      · rintro ⟨h1, h2, h3, h4, h5⟩
        exact ⟨⟨h1, h2, h3, h4⟩, by simpa using h5 hspe⟩
  · intro c hc
    unfold choose_best_candidate at hc
    cases hap : activePool cands with
    | nil =>
      rw [hap] at hc
      simp at hc
    | cons h t =>
      rw [hap] at hc
      simp only [Option.some.injEq] at hc
      subst hc
      constructor
      · exact pickBest_mem now h t
      · intro d hd
        exact pickBest_not_lt now h t d hd

/-- Witness for C5: the minimality clause of the theorem applied at the
concrete three-candidate scenario, the `some candC` hypothesis discharged by
evaluation. -/
theorem choose_best_candidate_spec_witness :
    candC ∈ activePool [candA, candB, candC] ∧
    (∀ d ∈ activePool [candA, candB, candC], keyLT 0 d candC = false) ∧
    (sportsPool [candA, candB, candC] ≠ [] → candC.sports_related = true) := by
  have h := (choose_best_candidate_spec 0 [candA, candB, candC]).2.2.1 candC (by decide)
  refine ⟨h.1, h.2, ?_⟩
  have h2 := ((choose_best_candidate_spec 0 [candA, candB, candC]).2.1 candC).1 h.1
  exact h2.2.2.2.2
